import Mathlib

/-!
Verification of the ChatAgent per-conversation concurrency controller and
frontend connection hook.

Backend side: the interrupt/supersede protocol of `agent_session.py` is
embedded from the `send_message` and `_run_query` excerpts given in the
backend README (the draining filter and the supersede sequence).  Parts of
the backend that the sources only describe (the `cancel` operation, the
session registry, the streaming-state accumulator of `session_manager.py`)
are modelled from the specification and marked as such in their doc
comments.

Frontend side: the `useChat` hook (`WebSocketManager.send`, `sendMessage`,
`updateSessionCache`, and the `processing_state` / `text_delta` message
handlers) is embedded directly from the TypeScript source.
-/

namespace ChatAgent

/-! ## Agent session state (backend `agent_session.py`, README excerpt)

`SessionState` mirrors the session fields that appear in the excerpt:
`_query_id` (the last allocated id), `_active_query_id`, `_cancelled`,
and whether `_current_task` exists and is not done. -/

structure SessionState where
  queryId : Nat
  activeQueryId : Nat
  cancelled : Bool
  running : Bool
  deriving Repr, DecidableEq

/-- The three-way choice the draining filter makes for one runtime message. -/
inductive DrainChoice
  | discardCancelled
  | discardStale
  | enqueue
  deriving Repr, DecidableEq

/-- The draining filter of `_run_query`, embedded from the README excerpt:

    if self._cancelled: continue
    if query_id != self._active_query_id: continue
    await self._message_queue.put(message)
-/
def drainChoice (cancelled : Bool) (activeQueryId : Nat) (queryId : Nat) : DrainChoice :=
  if cancelled then .discardCancelled
  else if queryId ≠ activeQueryId then .discardStale
  else .enqueue

/-- Effect of processing one runtime message on the session's event queue:
only an `enqueue` decision appends the message; both discard branches leave
the queue unchanged (the message is still consumed from the runtime). -/
def drainPut (cancelled : Bool) (activeQueryId queryId : Nat)
    (queue : List (Nat × Nat)) (payload : Nat) : List (Nat × Nat) :=
  match drainChoice cancelled activeQueryId queryId with
  | .enqueue => queue ++ [(queryId, payload)]
  | _ => queue

/-- Claim C1: the draining filter makes exactly one of three choices —
discard because `cancelledFlag` is set, discard because the message's
QueryId is not the active one, or enqueue — and a message reaches the
session's event queue if and only if `cancelledFlag` is false and its
QueryId equals `activeQueryId` at the time it is processed. -/
theorem drain_filter_three_way (c : Bool) (a q : Nat) (queue : List (Nat × Nat)) (p : Nat) :
    (drainChoice c a q = .discardCancelled ↔ c = true) ∧
    (drainChoice c a q = .discardStale ↔ c = false ∧ q ≠ a) ∧
    (drainChoice c a q = .enqueue ↔ c = false ∧ q = a) ∧
    (drainPut c a q queue p =
      if c = false ∧ q = a then queue ++ [(q, p)] else queue) := by
  cases c <;> by_cases hq : q = a <;> simp [drainPut, drainChoice, hq]

/-! ## `send_message` (backend `agent_session.py`, README excerpt)

    async with self._operation_lock:
        self._query_id += 1
        current_query_id = self._query_id
        if self._current_task and not self._current_task.done():
            self._cancelled = True
            await self._client.interrupt()
            await asyncio.wait_for(self._current_task, timeout=5.0)
        self._cancelled = False
        self._active_query_id = current_query_id
        self._current_task = asyncio.create_task(self._run_query(...))

The body runs under the operation lock, so it is embedded as one atomic
state transition.  The outcome of the bounded wait on the previous task is
an input (`WaitOutcome`). -/

/-- Outcome of the bounded (5 second) wait for the previous task. -/
inductive WaitOutcome
  | exited
  | timedOut
  deriving Repr, DecidableEq

/-- Modelled from the spec: the timeout branch of `send_message`.  The full
`agent_session.py` is not among the sources and the README excerpt elides
error handling; the spec states "If the timeout elapses, the previous task
is treated as abandoned ... `send` proceeds regardless" and "A timeout
waiting for a previous task during supersede is not itself a user-visible
error — it is logged and forward progress continues", so a `timedOut` wait
produces no `Except.error` and leaves the previous task abandoned (its
output is filtered by the draining filter).  The state transitions are the
README excerpt's. -/
def send_message (st : SessionState) (wait : WaitOutcome) :
    Except String (SessionState × Nat) :=
  let newId := st.queryId + 1
  let st1 : SessionState := { st with queryId := newId }
  let st2 : SessionState :=
    if st1.running then
      match wait with
      | .exited => { st1 with cancelled := true, running := false }
      | .timedOut => { st1 with cancelled := true }
    else st1
  .ok ({ st2 with cancelled := false, activeQueryId := newId, running := true }, newId)

/-- Iterate `send_message` over a list of wait outcomes, collecting the
QueryIds returned by each call. -/
def sendTrace : SessionState → List WaitOutcome → SessionState × List Nat
  | st, [] => (st, [])
  | st, w :: ws =>
    match send_message st w with
    | .ok (st1, id) =>
      let r := sendTrace st1 ws
      (r.1, id :: r.2)
    | .error _ => (st, [])

/-- The session state right after a successful `send_message`. -/
def afterSend (st : SessionState) : SessionState :=
  ⟨st.queryId + 1, st.queryId + 1, false, true⟩

theorem send_message_ok (st : SessionState) (w : WaitOutcome) :
    send_message st w = .ok (afterSend st, st.queryId + 1) := by
  cases w <;> by_cases h : st.running <;>
    simp [send_message, afterSend, h]

theorem sendTrace_ids (st : SessionState) (ws : List WaitOutcome) :
    (sendTrace st ws).2 = List.range' (st.queryId + 1) ws.length ∧
    (ws ≠ [] →
      (sendTrace st ws).1.queryId = st.queryId + ws.length ∧
      (sendTrace st ws).1.activeQueryId = st.queryId + ws.length) := by
  induction ws generalizing st with
  | nil => simp [sendTrace]
  | cons w ws ih =>
    have h := send_message_ok st w
    have hids := (ih (afterSend st)).1
    constructor
    · simp only [sendTrace, h, List.length_cons, List.range'_succ]
      simpa [afterSend] using hids
    · intro _
      simp only [sendTrace, h]
      cases ws with
      | nil => simp [sendTrace, afterSend]
      | cons w2 ws2 =>
        have h2 := (ih (afterSend st)).2 (by simp)
        simp only [afterSend, List.length_cons] at h2 ⊢
        omega

/-- Claim C3: every accepted `send` allocates `newId = lastId + 1`; over a
sequence of sends the assigned QueryIds are exactly consecutive integers and
hence strictly increasing, and after every send (every prefix of the
sequence) the session's `activeQueryId` equals the highest QueryId assigned
so far. -/
theorem send_queryIds_strictly_increasing (st : SessionState) (ws : List WaitOutcome) :
    (∀ w, (send_message st w).toOption.map (·.2) = some (st.queryId + 1)) ∧
    (sendTrace st ws).2 = List.range' (st.queryId + 1) ws.length ∧
    List.Pairwise (· < ·) (sendTrace st ws).2 ∧
    (∀ k, 0 < k → k ≤ ws.length →
      (sendTrace st (ws.take k)).1.activeQueryId = st.queryId + k ∧
      (sendTrace st (ws.take k)).1.activeQueryId =
        (sendTrace st (ws.take k)).1.queryId) := by
  refine ⟨fun w => by rw [send_message_ok st w]; rfl, (sendTrace_ids st ws).1, ?_, ?_⟩
  · rw [(sendTrace_ids st ws).1]
    have : ∀ (n s : Nat), List.Pairwise (· < ·) (List.range' s n) := by
      intro n
      induction n with
      | zero => intro s; simp
      | succ m ihm =>
        intro s
        rw [List.range'_succ]
        refine List.Pairwise.cons ?_ (ihm (s + 1))
        intro b hb
        have := List.mem_range'.mp hb
        omega

    exact this ws.length (st.queryId + 1)
  · intro k hk hkl
    have h2 := (sendTrace_ids st (ws.take k)).2 (by
      intro hnil
      have hl0 : (ws.take k).length = 0 := by rw [hnil]; rfl
      rw [List.length_take] at hl0
      omega)
    have hlen : (ws.take k).length = k := by
      rw [List.length_take]
      omega
    rw [hlen] at h2
    exact ⟨h2.2, by omega⟩

/-- Witness for C3 at a concrete session state and three sends. -/
theorem send_queryIds_strictly_increasing_witness :
    (∀ w, (send_message ⟨4, 4, false, true⟩ w).toOption.map (·.2) = some 5) ∧
    (sendTrace ⟨4, 4, false, true⟩ [.exited, .timedOut, .exited]).2 =
      List.range' 5 3 ∧
    List.Pairwise (· < ·) (sendTrace ⟨4, 4, false, true⟩ [.exited, .timedOut, .exited]).2 ∧
    (∀ k, 0 < k → k ≤ 3 →
      (sendTrace ⟨4, 4, false, true⟩ ([WaitOutcome.exited, .timedOut, .exited].take k)).1.activeQueryId = 4 + k ∧
      (sendTrace ⟨4, 4, false, true⟩ ([WaitOutcome.exited, .timedOut, .exited].take k)).1.activeQueryId =
        (sendTrace ⟨4, 4, false, true⟩ ([WaitOutcome.exited, .timedOut, .exited].take k)).1.queryId) :=
  send_queryIds_strictly_increasing ⟨4, 4, false, true⟩ [.exited, .timedOut, .exited]

/-- Claim C4: superseding a still-streaming query waits at most the bounded
timeout for the previous task; when the wait times out, `send_message` still
returns `.ok` (the timeout is not surfaced as an error), the new query is
spawned (`running` is true, `activeQueryId` is the new id) and the new
QueryId is returned. -/
theorem send_timeout_not_an_error (st : SessionState) (h : st.running = true) :
    send_message st .timedOut =
      .ok ({ queryId := st.queryId + 1, activeQueryId := st.queryId + 1,
             cancelled := false, running := true }, st.queryId + 1) ∧
    ∀ e, send_message st .timedOut ≠ .error e := by
  refine ⟨send_message_ok st .timedOut, fun e => ?_⟩
  rw [send_message_ok st .timedOut]
  simp

/-- Witness for C4: a streaming session whose previous task never exits. -/
theorem send_timeout_not_an_error_witness :
    (⟨7, 7, false, true⟩ : SessionState).running = true ∧
    (send_message ⟨7, 7, false, true⟩ .timedOut =
      .ok (⟨8, 8, false, true⟩, 8) ∧
    ∀ e, send_message (⟨7, 7, false, true⟩ : SessionState) .timedOut ≠ .error e) :=
  ⟨rfl, send_timeout_not_an_error ⟨7, 7, false, true⟩ rfl⟩

/-! ## Session trace model

A small-step model of one Agent Session: the `send_message` transition and
the draining filter are taken from the README excerpts above; the query
lifecycle states (`Streaming`, `Completed`, `Superseded`) are modelled from
the spec's data model, since `agent_session.py` itself is not among the
sources. -/

/-- Query lifecycle states (spec §3); `NotStarted` stands for a QueryId not
yet assigned. -/
inductive QState
  | NotStarted
  | Streaming
  | Completed
  | Superseded
  deriving Repr, DecidableEq

/-- Full observable session state: the `SessionState` fields plus, modelled
from the spec, the per-query lifecycle states and the session's event
queue (pairs of QueryId and payload). -/
structure MState where
  lastId : Nat
  activeId : Nat
  cancelled : Bool
  running : Bool
  qstate : Nat → QState
  queue : List (Nat × Nat)

/-- One step of the session model: a `send_message` call (with the outcome
of its bounded wait), one runtime event processed by the draining filter, or
the running task finishing normally. -/
inductive Step
  | send (w : WaitOutcome)
  | runtimeEvent (qid payload : Nat)
  | complete
  deriving Repr, DecidableEq

def Step.isSend : Step → Bool
  | .send _ => true
  | _ => false

def Step.isComplete : Step → Bool
  | .complete => true
  | _ => false

/-- The `send_message` call on the full model state: the `SessionState` transition is
`send_message` above; in addition (modelled from the spec) a still-streaming
previous query becomes `Superseded` and the new query becomes `Streaming`. -/
def stepSend (s : MState) (w : WaitOutcome) : MState :=
  let newId := s.lastId + 1
  let qst : Nat → QState := fun q =>
    if s.running = true ∧ q = s.activeId then .Superseded else s.qstate q
  let _ := w
  { lastId := newId, activeId := newId, cancelled := false, running := true,
    qstate := fun q => if q = newId then .Streaming else qst q,
    queue := s.queue }

/-- One runtime event processed by the draining filter of `_run_query`
(embedded above as `drainPut`). -/
def stepEvent (s : MState) (qid payload : Nat) : MState :=
  { s with queue := drainPut s.cancelled s.activeId qid s.queue payload }

/-- The running task finishes normally: modelled from the spec, the active
query reaches `Completed`; a session with no running task is unchanged. -/
def stepComplete (s : MState) : MState :=
  if s.running = true then
    { s with qstate := fun q => if q = s.activeId then .Completed else s.qstate q,
             running := false }
  else s

def step (s : MState) : Step → MState
  | .send w => stepSend s w
  | .runtimeEvent qid payload => stepEvent s qid payload
  | .complete => stepComplete s

def exec (s : MState) (tr : List Step) : MState := tr.foldl step s

theorem exec_cons (s : MState) (st : Step) (tr : List Step) :
    exec s (st :: tr) = exec (step s st) tr := rfl

theorem stepSend_lastId (s : MState) (w : WaitOutcome) :
    (stepSend s w).lastId = s.lastId + 1 := rfl

theorem stepSend_activeId (s : MState) (w : WaitOutcome) :
    (stepSend s w).activeId = s.lastId + 1 := rfl

theorem stepSend_running (s : MState) (w : WaitOutcome) :
    (stepSend s w).running = true := rfl

theorem stepSend_queue (s : MState) (w : WaitOutcome) :
    (stepSend s w).queue = s.queue := rfl

theorem stepSend_qstate (s : MState) (w : WaitOutcome) (q : Nat) :
    (stepSend s w).qstate q =
      if q = s.lastId + 1 then .Streaming
      else if s.running = true ∧ q = s.activeId then .Superseded
      else s.qstate q := rfl

/-- The initial session state: no query yet. -/
def initState : MState :=
  { lastId := 0, activeId := 0, cancelled := false, running := false,
    qstate := fun _ => .NotStarted, queue := [] }

theorem exec_append (s : MState) (t1 t2 : List Step) :
    exec s (t1 ++ t2) = exec (exec s t1) t2 := by
  simp [exec, List.foldl_append]

/-- Steps other than `send` leave `lastId` and `activeId` unchanged, and
`send` increments both to the same value: `activeId = lastId` is invariant. -/
theorem exec_active_eq_last (s : MState) (tr : List Step)
    (h : s.activeId = s.lastId) : (exec s tr).activeId = (exec s tr).lastId := by
  induction tr generalizing s with
  | nil => exact h
  | cons st tr ih =>
    cases st with
    | send w => exact ih _ rfl
    | runtimeEvent qid p => exact ih _ h
    | complete =>
      refine ih _ ?_
      simp only [step, stepComplete]
      split <;> exact h

/-- The `lastId` counter never decreases along a trace. -/
theorem exec_lastId_mono (s : MState) (tr : List Step) :
    s.lastId ≤ (exec s tr).lastId := by
  induction tr generalizing s with
  | nil => exact le_refl _
  | cons st tr ih =>
    refine le_trans ?_ (ih (step s st))
    cases st with
    | send w => simp [step, stepSend]
    | runtimeEvent qid p => simp [step, stepEvent]
    | complete =>
      simp only [step, stepComplete]
      split <;> simp

/-- Invariant holding while sends are being issued with no intervening
completion: the active id is the last id, a task runs whenever a query was
issued, every earlier query is `Superseded`, the last query is `Streaming`,
and unissued ids are `NotStarted`. -/
def sendPhaseInv (s : MState) : Prop :=
  s.activeId = s.lastId ∧
  (s.running = true ↔ 0 < s.lastId) ∧
  (∀ q, 0 < q → q < s.lastId → s.qstate q = .Superseded) ∧
  (0 < s.lastId → s.qstate s.lastId = .Streaming) ∧
  (∀ q, q = 0 ∨ s.lastId < q → s.qstate q = .NotStarted)

theorem sendPhaseInv_init : sendPhaseInv initState := by
  refine ⟨rfl, by simp [initState], ?_, ?_, ?_⟩ <;> simp [initState]

theorem sendPhaseInv_step (s : MState) (st : Step) (hst : st.isComplete = false)
    (h : sendPhaseInv s) : sendPhaseInv (step s st) := by
  obtain ⟨ha, hr, hsup, hstream, hnot⟩ := h
  cases st with
  | complete => simp [Step.isComplete] at hst
  | runtimeEvent qid p =>
    exact ⟨ha, hr, hsup, hstream, hnot⟩
  | send w =>
    show sendPhaseInv (stepSend s w)
    refine ⟨?_, ?_, ?_, ?_, ?_⟩
    · rw [stepSend_activeId, stepSend_lastId]
    · rw [stepSend_running, stepSend_lastId]
      simp
    · intro q hq0 hq
      rw [stepSend_lastId] at hq
      rw [stepSend_qstate, if_neg (by omega)]
      rcases Nat.lt_or_ge q s.lastId with hlt | hge
      · split
        · rfl
        · exact hsup q hq0 hlt
      · have hq_eq : q = s.lastId := by omega
        have hrun : s.running = true := hr.mpr (by omega)
        rw [if_pos ⟨hrun, by rw [hq_eq, ha]⟩]
    · intro _
      rw [stepSend_lastId, stepSend_qstate, if_pos rfl]
    · intro q hq
      rw [stepSend_lastId] at hq
      have hne : ¬ q = s.lastId + 1 := by
        rcases hq with hq | hq <;> omega
      rw [stepSend_qstate, if_neg hne]
      rcases hq with hq | hq
      · subst hq
        by_cases h0 : 0 < s.lastId
        · rw [if_neg (by rintro ⟨_, hact⟩; rw [ha] at hact; omega)]
          exact hnot 0 (Or.inl rfl)
        · have hrun : ¬ s.running = true := by
            rw [hr]; omega
          rw [if_neg (by rintro ⟨hc, _⟩; exact hrun hc)]
          exact hnot 0 (Or.inl rfl)
      · rw [if_neg (by rintro ⟨_, hact⟩; rw [ha] at hact; omega)]
        exact hnot q (Or.inr (by omega))

/-- A complete-free trace preserves `sendPhaseInv`. -/
theorem sendPhaseInv_exec (s : MState) (tr : List Step)
    (htr : ∀ st ∈ tr, st.isComplete = false) (h : sendPhaseInv s) :
    sendPhaseInv (exec s tr) := by
  induction tr generalizing s with
  | nil => exact h
  | cons st tr ih =>
    exact ih (step s st) (fun x hx => htr x (by simp [hx]))
      (sendPhaseInv_step s st (htr st (by simp)) h)

/-- A send-free trace leaves `lastId`, `activeId` and the queue-independent
query states untouched except that the active query may become `Completed`. -/
theorem sendFree_exec (s : MState) (tr : List Step)
    (htr : ∀ st ∈ tr, st.isSend = false) :
    (exec s tr).lastId = s.lastId ∧
    (exec s tr).activeId = s.activeId ∧
    (∀ q, q ≠ s.activeId → (exec s tr).qstate q = s.qstate q) ∧
    ((exec s tr).qstate s.activeId = s.qstate s.activeId ∨
      (exec s tr).qstate s.activeId = .Completed) := by
  induction tr generalizing s with
  | nil => exact ⟨rfl, rfl, fun _ _ => rfl, Or.inl rfl⟩
  | cons st tr ih =>
    have hrest := ih (step s st) (fun x hx => htr x (by simp [hx]))
    rw [exec_cons]
    cases st with
    | send w =>
      exact absurd (htr (.send w) (by simp)) (by simp [Step.isSend])
    | runtimeEvent qid p =>
      have hq : (step s (.runtimeEvent qid p)).qstate = s.qstate := rfl
      have hl : (step s (.runtimeEvent qid p)).lastId = s.lastId := rfl
      have hac : (step s (.runtimeEvent qid p)).activeId = s.activeId := rfl
      rw [hl, hac, hq] at hrest
      exact hrest
    | complete =>
      by_cases hrun : s.running = true
      · have hstepc : step s .complete =
            { s with qstate := fun q => if q = s.activeId then .Completed else s.qstate q,
                     running := false } := by
          simp [step, stepComplete, hrun]
        rw [hstepc] at hrest ⊢
        dsimp only at hrest
        obtain ⟨hl, hac, hother, hactive⟩ := hrest
        refine ⟨hl, hac, ?_, ?_⟩
        · intro q hq2
          rw [hother q hq2, if_neg hq2]
        · rw [if_pos rfl] at hactive
          rcases hactive with hcase | hcase
          · exact Or.inr hcase
          · exact Or.inr hcase
      · have hid : step s .complete = s := by
          simp [step, stepComplete, hrun]
        rw [hid] at hrest ⊢
        exact hrest

theorem drainPut_eq (c : Bool) (a q : Nat) (queue : List (Nat × Nat)) (p : Nat) :
    drainPut c a q queue p =
      if c = false ∧ q = a then queue ++ [(q, p)] else queue := by
  cases c <;> by_cases hq : q = a <;> simp [drainPut, drainChoice, hq]

/-- Once a query id is below the session's `lastId` (it has been superseded),
no later step ever appends one of its events to the queue: its slice of the
queue is frozen. -/
theorem queue_frozen (u v : List Step) (q : Nat)
    (h : q < (exec initState u).lastId) :
    ((exec initState (u ++ v)).queue.filter (fun e => e.1 == q)) =
      ((exec initState u).queue.filter (fun e => e.1 == q)) := by
  induction v generalizing u with
  | nil => rw [List.append_nil]
  | cons st v ih =>
    have hassoc : u ++ st :: v = (u ++ [st]) ++ v := by simp
    have hstep : exec initState (u ++ [st]) = step (exec initState u) st := by
      rw [exec_append]; rfl
    have hmono : q < (exec initState (u ++ [st])).lastId := by
      have hm := exec_lastId_mono (exec initState u) [st]
      have h1 : exec (exec initState u) [st] = step (exec initState u) st := rfl
      rw [h1] at hm
      rw [hstep]
      omega
    have hfix : ((exec initState (u ++ [st])).queue.filter (fun e => e.1 == q)) =
        ((exec initState u).queue.filter (fun e => e.1 == q)) := by
      rw [hstep]
      cases st with
      | send w =>
        rw [show (step (exec initState u) (.send w)).queue =
          (exec initState u).queue from rfl]
      | complete =>
        have hcq : (step (exec initState u) .complete).queue =
            (exec initState u).queue := by
          simp only [step, stepComplete]
          split <;> rfl
        rw [hcq]
      | runtimeEvent qid p =>
        have hq : (step (exec initState u) (.runtimeEvent qid p)).queue =
            drainPut (exec initState u).cancelled (exec initState u).activeId
              qid (exec initState u).queue p := rfl
        rw [hq, drainPut_eq]
        by_cases hcond : (exec initState u).cancelled = false ∧
            qid = (exec initState u).activeId
        · rw [if_pos hcond, List.filter_append]
          have hal : (exec initState u).activeId = (exec initState u).lastId :=
            exec_active_eq_last initState u rfl
          have hne : (qid == q) = false := by
            have hql : qid = (exec initState u).lastId := by
              rw [← hal]; exact hcond.2
            simp only [beq_eq_false_iff_ne, ne_eq]
            omega
          simp [hne]
        · rw [if_neg hcond]
    rw [hassoc, ih (u ++ [st]) hmono, hfix]

/-- Claim C2: in any run in which all `send` calls are issued with no
intervening completion (trace `t1` is completion-free and contains the
sends; the remainder `t2` contains no further send), only the last-issued
query can ever reach `Completed`; every earlier issued query ends
`Superseded`; and once a query has been superseded (its id is below the
session's `lastId`), the events in the queue belonging to it never grow
again — zero of its events become visible after the point of
supersession. -/
theorem superseded_queries_silent (t1 t2 : List Step)
    (h1 : ∀ st ∈ t1, st.isComplete = false)
    (h2 : ∀ st ∈ t2, st.isSend = false) :
    (∀ q, (exec initState (t1 ++ t2)).qstate q = .Completed →
        q = (exec initState t1).lastId) ∧
    (∀ q, 0 < q → q < (exec initState t1).lastId →
        (exec initState (t1 ++ t2)).qstate q = .Superseded) ∧
    (∀ (u v : List Step) (q : Nat), q < (exec initState u).lastId →
        ((exec initState (u ++ v)).queue.filter (fun e => e.1 == q)) =
          ((exec initState u).queue.filter (fun e => e.1 == q))) := by
  obtain ⟨ha, hr, hsup, hstream, hnot⟩ :=
    sendPhaseInv_exec initState t1 h1 sendPhaseInv_init
  have hfree := sendFree_exec (exec initState t1) t2 h2
  rw [← exec_append] at hfree
  obtain ⟨hl, hac, hother, hactive⟩ := hfree
  refine ⟨?_, ?_, fun u v q h => queue_frozen u v q h⟩
  · intro q hq
    by_contra hne
    have hqne : q ≠ (exec initState t1).activeId := by rw [ha]; exact hne
    rw [hother q hqne] at hq
    rcases Nat.lt_trichotomy q (exec initState t1).lastId with hlt | heq | hgt
    · by_cases h0 : 0 < q
      · rw [hsup q h0 hlt] at hq
        simp at hq
      · have hq0 : q = 0 := by omega
        rw [hnot q (Or.inl hq0)] at hq
        simp at hq
    · exact hne heq
    · rw [hnot q (Or.inr hgt)] at hq
      simp at hq
  · intro q h0 hlt
    have hqne : q ≠ (exec initState t1).activeId := by rw [ha]; omega
    rw [hother q hqne]
    exact hsup q h0 hlt

/-- Witness for C2: two sends (the first superseded mid-stream), then the
surviving query's events and a completion. -/
theorem superseded_queries_silent_witness :
    (∀ st ∈ [Step.send .exited, Step.runtimeEvent 1 10, Step.send .exited,
        Step.runtimeEvent 1 11, Step.runtimeEvent 2 12], st.isComplete = false) ∧
    (∀ st ∈ [Step.runtimeEvent 2 13, Step.complete], st.isSend = false) ∧
    ((∀ q, (exec initState ([Step.send .exited, Step.runtimeEvent 1 10,
          Step.send .exited, Step.runtimeEvent 1 11, Step.runtimeEvent 2 12] ++
          [Step.runtimeEvent 2 13, Step.complete])).qstate q = .Completed →
        q = (exec initState [Step.send .exited, Step.runtimeEvent 1 10,
          Step.send .exited, Step.runtimeEvent 1 11,
          Step.runtimeEvent 2 12]).lastId) ∧
    (∀ q, 0 < q → q < (exec initState [Step.send .exited, Step.runtimeEvent 1 10,
          Step.send .exited, Step.runtimeEvent 1 11,
          Step.runtimeEvent 2 12]).lastId →
        (exec initState ([Step.send .exited, Step.runtimeEvent 1 10,
          Step.send .exited, Step.runtimeEvent 1 11, Step.runtimeEvent 2 12] ++
          [Step.runtimeEvent 2 13, Step.complete])).qstate q = .Superseded) ∧
    (∀ (u v : List Step) (q : Nat), q < (exec initState u).lastId →
        ((exec initState (u ++ v)).queue.filter (fun e => e.1 == q)) =
          ((exec initState u).queue.filter (fun e => e.1 == q)))) :=
  ⟨by decide, by decide,
    superseded_queries_silent
      [Step.send .exited, Step.runtimeEvent 1 10, Step.send .exited,
        Step.runtimeEvent 1 11, Step.runtimeEvent 2 12]
      [Step.runtimeEvent 2 13, Step.complete] (by decide) (by decide)⟩

/-! ## `cancel` -/

/-- Modelled from the spec: the `cancel()` operation of `agent_session.py`
(the file itself is not among the sources).  Spec §4.1: "Acquire the lock.
If no query is Streaming, release and return false"; otherwise "Set
`cancelledFlag = true`; signal the runtime to interrupt; wait up to the same
bounded timeout for the task to exit; release the lock; return true whether
or not the wait timed out (best-effort)". -/
def cancel (s : MState) (w : WaitOutcome) : MState × Bool :=
  if s.running = true then
    let s1 := { s with cancelled := true }
    match w with
    | .exited => ({ s1 with running := false }, true)
    | .timedOut => (s1, true)
  else (s, false)

/-- Claim C6: `cancel()` called while no query is active returns false and
has no side effects: `activeQueryId`, `cancelledFlag`, `runningTask`, the
query states and the session's event queue are all left exactly as they
were. -/
theorem cancel_no_active_noop (s : MState) (w : WaitOutcome)
    (h : s.running = false) : cancel s w = (s, false) := by
  simp [cancel, h]

/-- Witness for C6: cancelling the fresh session (no active query). -/
theorem cancel_no_active_noop_witness :
    initState.running = false ∧ cancel initState .exited = (initState, false) :=
  ⟨rfl, cancel_no_active_noop initState .exited rfl⟩

/-! ## Frontend: `useChat` hook (`useChat.ts`) -/

namespace Frontend

/-- JavaScript `String.prototype.trim()`: strip leading and trailing
whitespace. -/
def jsTrim (s : String) : String :=
  ⟨((s.data.dropWhile Char.isWhitespace).reverse.dropWhile Char.isWhitespace).reverse⟩

inductive Role
  | user
  | assistant
  deriving Repr, DecidableEq

/-- Frontend chat message (interface `Message`); ids (`Date.now()` strings
in the source) are modelled as naturals drawn from a counter. -/
structure Message where
  id : Nat
  role : Role
  content : String
  isStreaming : Bool
  deriving Repr, DecidableEq

/-- The part of the hook's state the stream handlers read and write:
`messages`, `streamingMessageIdRef`, and the id source for new messages. -/
structure ClientState where
  messages : List Message
  streamingMessageId : Option Nat
  nextId : Nat
  deriving Repr, DecidableEq

/-- The `processing_state` case of `handleMessage`, for the current chat
with `is_processing` and `streaming_state.is_streaming` both set: build a
fresh assistant message carrying `current_content`, append it after a user
message, replace a trailing assistant message, and record it as the
streaming message. -/
def handleProcessingState (st : ClientState) (currentContent : String) : ClientState :=
  let newMessageId := st.nextId
  let streamingMessage : Message :=
    { id := newMessageId, role := .assistant, content := currentContent,
      isStreaming := true }
  let msgs :=
    match st.messages.getLast? with
    | some lastMsg =>
      if lastMsg.role = .user then st.messages ++ [streamingMessage]
      else if lastMsg.role = .assistant then
        st.messages.dropLast ++ [streamingMessage]
      else st.messages ++ [streamingMessage]
    | none => st.messages ++ [streamingMessage]
  { messages := msgs, streamingMessageId := some newMessageId,
    nextId := st.nextId + 1 }

/-- The `text_delta` case of `handleMessage` for the current chat: when a
streaming message id is set and the last message is the streaming one,
extend its content by the delta (`content: updated[lastIndex].content +
delta`); otherwise leave the list unchanged. -/
def handleTextDelta (st : ClientState) (delta : String) : ClientState :=
  match st.streamingMessageId with
  | none => st
  | some sid =>
    match st.messages.getLast? with
    | some lastMsg =>
      if lastMsg.id = sid then
        { st with messages := st.messages.dropLast ++
            [{ lastMsg with content := lastMsg.content ++ delta }] }
      else st
    | none => st

/-- Concatenation of a list of text deltas in delivery order. -/
def concatAll (l : List String) : String := l.foldr (· ++ ·) ""

/-- Modelled from the spec: the Connection Hub's per-conversation streaming
state (`session_manager.py` is not among the sources).  On `stream_start`
the partial text is empty; every `TextDelta` broadcast to the attached
connections is also appended to the partial text; the resume snapshot sent
to a newly attached connection carries this partial text as
`streaming_state.current_content`. -/
structure BackendStream where
  delivered : List String
  currentContent : String
  deriving Repr, DecidableEq

/-- Modelled from the spec: streaming state right after `stream_start`. -/
def streamStart : BackendStream := ⟨[], ""⟩

/-- Modelled from the spec: broadcast one `TextDelta` to the attached
connections and accumulate it into the partial text. -/
def emitDelta (b : BackendStream) (d : String) : BackendStream :=
  ⟨b.delivered ++ [d], b.currentContent ++ d⟩

def runStream (ds : List String) : BackendStream := ds.foldl emitDelta streamStart

theorem emitDelta_foldl (l : List String) (c : String) (ds : List String) :
    ds.foldl emitDelta ⟨l, c⟩ = ⟨l ++ ds, c ++ concatAll ds⟩ := by
  induction ds generalizing l c with
  | nil => simp [concatAll, String.append_empty]
  | cons d ds ih =>
    show ds.foldl emitDelta ⟨l ++ [d], c ++ d⟩ = _
    rw [ih]
    simp [concatAll, String.append_assoc]

theorem runStream_eq (ds : List String) : runStream ds = ⟨ds, concatAll ds⟩ := by
  have h := emitDelta_foldl [] "" ds
  rw [runStream, streamStart, h]
  simp [String.empty_append]

theorem concatAll_append (l1 l2 : List String) :
    concatAll (l1 ++ l2) = concatAll l1 ++ concatAll l2 := by
  induction l1 with
  | nil => simp [concatAll, String.empty_append]
  | cons d ds ih =>
    show d ++ concatAll (ds ++ l2) = d ++ concatAll ds ++ concatAll l2
    rw [ih, String.append_assoc]

theorem handleProcessingState_shape (st : ClientState) (c : String) :
    (handleProcessingState st c).messages.getLast? =
      some { id := st.nextId, role := .assistant, content := c, isStreaming := true } ∧
    (handleProcessingState st c).streamingMessageId = some st.nextId := by
  unfold handleProcessingState
  refine ⟨?_, rfl⟩
  cases hm : st.messages.getLast? with
  | none => simp
  | some lastMsg =>
    by_cases hu : lastMsg.role = .user
    · simp [hu]
    · by_cases hass : lastMsg.role = .assistant <;> simp [hu, hass]

theorem handleTextDelta_fold (ds : List String) (st : ClientState) (sid : Nat)
    (m : Message) (hsid : st.streamingMessageId = some sid)
    (hm : st.messages.getLast? = some m) (hid : m.id = sid) :
    ((ds.foldl handleTextDelta st).messages.getLast?.map (·.content) =
      some (m.content ++ concatAll ds)) := by
  induction ds generalizing st m with
  | nil =>
    simp [hm, concatAll, String.append_empty]
  | cons d ds ih =>
    have hstep : handleTextDelta st d =
        { st with messages := st.messages.dropLast ++
            [{ m with content := m.content ++ d }] } := by
      unfold handleTextDelta
      rw [hsid, hm]
      simp [hid]
    have hlast : (handleTextDelta st d).messages.getLast? =
        some { m with content := m.content ++ d } := by
      rw [hstep]
      simp
    have hsid2 : (handleTextDelta st d).streamingMessageId = some sid := by
      rw [hstep]
      exact hsid
    have := ih (handleTextDelta st d) { m with content := m.content ++ d }
      hsid2 hlast hid
    show ((ds.foldl handleTextDelta (handleTextDelta st d)).messages.getLast?.map
      (·.content)) = _
    rw [this]
    show some (m.content ++ d ++ concatAll ds) = some (m.content ++ (d ++ concatAll ds))
    rw [String.append_assoc]

/-- Claim C5: a connection attaching while a query is streaming receives a
resume snapshot whose partial text (`streaming_state.current_content`)
equals the concatenation, in delivery order, of all `TextDelta` payloads
broadcast to the previously attached connections so far — no more, no less;
the client turns the snapshot into a streaming assistant message holding
exactly that text and thereafter grows it by `content := content + delta`
on each `text_delta`, so after any further deltas the message holds the
concatenation of every delta of the stream. -/
theorem resume_snapshot_exact (st : ClientState) (ds1 ds2 : List String) :
    (runStream ds1).delivered = ds1 ∧
    (runStream ds1).currentContent = concatAll ds1 ∧
    ((handleProcessingState st (runStream ds1).currentContent).messages.getLast?.map
        (·.content) = some (concatAll ds1)) ∧
    ((ds2.foldl handleTextDelta
        (handleProcessingState st (runStream ds1).currentContent)).messages.getLast?.map
        (·.content) = some (concatAll (ds1 ++ ds2))) := by
  have hrun := runStream_eq ds1
  have hcc : (runStream ds1).currentContent = concatAll ds1 := by rw [hrun]
  have hshape := handleProcessingState_shape st (runStream ds1).currentContent
  refine ⟨by rw [hrun], hcc, ?_, ?_⟩
  · rw [hshape.1]
    simp [hcc]
  · have hfold := handleTextDelta_fold ds2
      (handleProcessingState st (runStream ds1).currentContent) st.nextId
      { id := st.nextId, role := .assistant,
        content := (runStream ds1).currentContent, isStreaming := true }
      hshape.2 hshape.1 rfl
    rw [hfold, hcc, concatAll_append]

/-! ## Session cache (`sessionCacheMap` / `updateSessionCache`) -/

/-- One entry of `sessionCacheMap` (interface `SessionCache`). -/
structure SessionCache where
  messages : List Message
  isStreaming : Bool
  streamingMessageId : Option Nat
  isLoading : Bool
  deriving Repr, DecidableEq

/-- A `Partial<SessionCache>` argument: fields absent from the object
literal are `none` and do not overwrite. -/
structure CacheUpdates where
  messages : Option (List Message) := none
  isStreaming : Option Bool := none
  streamingMessageId : Option (Option Nat) := none
  isLoading : Option Bool := none
  deriving Repr, DecidableEq

/-- JavaScript object spread `{ ...base, ...updates }`. -/
def applyCacheUpdates (base : SessionCache) (u : CacheUpdates) : SessionCache :=
  { messages := u.messages.getD base.messages,
    isStreaming := u.isStreaming.getD base.isStreaming,
    streamingMessageId := u.streamingMessageId.getD base.streamingMessageId,
    isLoading := u.isLoading.getD base.isLoading }

/-- The defaults used when `updateSessionCache` creates a fresh entry. -/
def defaultSessionCache : SessionCache :=
  { messages := [], isStreaming := false, streamingMessageId := none,
    isLoading := false }

/-- Function `updateSessionCache` embedded from `useChat.ts`: merge the updates into
the existing entry for `chatId`, or create a fresh entry from the defaults;
`sessionCacheMap` is modelled as a function from chat id to optional
entry. -/
def updateSessionCache (m : String → Option SessionCache) (chatId : String)
    (u : CacheUpdates) : String → Option SessionCache :=
  fun k =>
    if k = chatId then
      some (match m chatId with
        | some existing => applyCacheUpdates existing u
        | none => applyCacheUpdates defaultSessionCache u)
    else m k

/-- Claim C10: `updateSessionCache chatId updates` rewrites only the entry
keyed by `chatId` — merging into the existing entry, or creating one from
the default fields when none exists — and leaves the entry of every other
chat id unchanged. -/
theorem updateSessionCache_frame (m : String → Option SessionCache)
    (chatId : String) (u : CacheUpdates) :
    (∀ k, k ≠ chatId → updateSessionCache m chatId u k = m k) ∧
    updateSessionCache m chatId u chatId =
      some (applyCacheUpdates ((m chatId).getD defaultSessionCache) u) := by
  constructor
  · intro k hk
    rw [updateSessionCache, if_neg hk]
  · rw [updateSessionCache, if_pos rfl]
    cases m chatId <;> rfl

/-- Witness for C10: update one entry of a two-entry cache and observe the
other entry untouched. -/
theorem updateSessionCache_frame_witness :
    (∀ k, k ≠ "a" →
      updateSessionCache
        (fun k => if k = "a" then some ⟨[], true, some 3, true⟩ else none) "a"
        { isLoading := some false } k =
      (fun k => if k = "a" then some ⟨[], true, some 3, true⟩ else none) k) ∧
    updateSessionCache
        (fun k => if k = "a" then some ⟨[], true, some 3, true⟩ else none) "a"
        { isLoading := some false } "a" =
      some (applyCacheUpdates
        (((fun k => if k = "a" then some ⟨[], true, some 3, true⟩ else none) "a").getD
          defaultSessionCache)
        { isLoading := some false }) :=
  updateSessionCache_frame
    (fun k => if k = "a" then some ⟨[], true, some 3, true⟩ else none) "a"
    { isLoading := some false }

/-! ## `WebSocketManager.send` and `sendMessage` -/

/-- The W3C WebSocket ready states. -/
inductive ReadyState
  | CONNECTING
  | OPEN
  | CLOSING
  | CLOSED
  deriving Repr, DecidableEq

/-- An image attached to a message (`id`, `base64`, `mimeType`). -/
structure ImageData where
  id : Nat
  base64 : String
  mimeType : String
  deriving Repr, DecidableEq

/-- An outbound frame, prior to JSON serialization.  A `chat` frame carries
the chat id, the trimmed content, and (when present) the images mapped to
`{ base64, media_type }` pairs. -/
inductive Frame
  | chat (chatId : String) (content : String) (images : List (String × String))
  | subscribe (chatId : String)
  | stop (chatId : String)
  deriving Repr, DecidableEq

/-- Method `WebSocketManager.send` embedded from `useChat.ts`: transmit (and
return true) exactly when a socket exists and its ready state is `OPEN`;
otherwise transmit nothing and return false.  The socket reference
`this.ws` is `none` when no socket exists.  Result: (frame put on the wire,
returned boolean). -/
def wsSend (ws : Option ReadyState) (data : Frame) : Option Frame × Bool :=
  match ws with
  | some .OPEN => (some data, true)
  | _ => (none, false)

/-- Observable outcome of one `sendMessage` call. -/
structure SendMessageOutcome where
  transmitted : Option Frame
  cache : String → Option SessionCache
  errorCalled : Bool
  localMessageAppended : Bool

/-- Function `sendMessage` embedded from `useChat.ts`: reject empty input (trimmed
content empty and no images) or a missing active chat id synchronously;
otherwise optionally append the local user message, set
`{ isLoading := true, isStreaming := false }`, build the `chat` frame with
trimmed content and mapped images, and hand it to `WebSocketManager.send`;
when the socket does not transmit, reset `isLoading` and invoke the
`onError` callback instead of raising. -/
def sendMessage (cache : String → Option SessionCache) (ws : Option ReadyState)
    (activeChatId : Option String) (content : String)
    (images : Option (List ImageData)) (skipLocalMessage : Bool) :
    SendMessageOutcome :=
  match activeChatId with
  | none => ⟨none, cache, false, false⟩
  | some chatId =>
    if jsTrim content = "" ∧ images.getD [] = [] then
      ⟨none, cache, false, false⟩
    else
      let cache1 := updateSessionCache cache chatId
        { isLoading := some true, isStreaming := some false }
      let frame := Frame.chat chatId (jsTrim content)
        ((images.getD []).map fun i => (i.base64, i.mimeType))
      match wsSend ws frame with
      | (tx, true) => ⟨tx, cache1, false, !skipLocalMessage⟩
      | (_, false) =>
        ⟨none, updateSessionCache cache1 chatId { isLoading := some false },
          true, !skipLocalMessage⟩

/-- Function `handleSend` of `ChatInput.tsx`: invoke `onSend` only when the trimmed
input is non-empty or at least one image is attached, and the input is not
disabled; images are passed only when present. -/
def handleSend (input : String) (images : List ImageData) (disabled : Bool) :
    Option (String × Option (List ImageData)) :=
  if (jsTrim input ≠ "" ∨ images ≠ []) ∧ disabled = false then
    some (input, if images.isEmpty then none else some images)
  else none

/-- Claim C7: a submit whose text is empty or whitespace-only and which
carries no image attachments is rejected synchronously: `sendMessage`
transmits no frame (so the backend's `send_message` is never reached and no
QueryId is allocated), changes no cache state, appends no local message and
raises no error; likewise `ChatInput.handleSend` never invokes `onSend` for
such input. -/
theorem empty_submit_rejected (cache : String → Option SessionCache)
    (ws : Option ReadyState) (activeChatId : Option String) (content : String)
    (images : Option (List ImageData)) (skipLocalMessage disabled : Bool)
    (hc : jsTrim content = "") (hi : images.getD [] = []) :
    sendMessage cache ws activeChatId content images skipLocalMessage =
      ⟨none, cache, false, false⟩ ∧
    handleSend content (images.getD []) disabled = none := by
  constructor
  · cases activeChatId with
    | none => rfl
    | some chatId =>
      rw [sendMessage, if_pos ⟨hc, hi⟩]
  · rw [handleSend, if_neg]
    rintro ⟨h1, _⟩
    rcases h1 with h1 | h1
    · exact h1 hc
    · exact h1 hi

/-- Witness for C7: a whitespace-only submit with no images. -/
theorem empty_submit_rejected_witness :
    jsTrim "  \t " = "" ∧ (none : Option (List ImageData)).getD [] = [] ∧
    (sendMessage (fun _ => none) (some .OPEN) (some "chat-1") "  \t " none false =
      ⟨none, fun _ => none, false, false⟩ ∧
    handleSend "  \t " ((none : Option (List ImageData)).getD []) false = none) :=
  ⟨by decide, rfl,
    empty_submit_rejected (fun _ => none) (some .OPEN) (some "chat-1") "  \t "
      none false false (by decide) rfl⟩

/-- Claim C9: `WebSocketManager.send` transmits the frame and returns true
exactly when the underlying socket exists and is `OPEN`; in every other
state (no socket, connecting, closing, closed) it transmits nothing and
returns false, and `sendMessage` then resets the chat's `isLoading` cache
flag to false and invokes the `onError` callback instead of raising. -/
theorem ws_send_open_only (ws : Option ReadyState) (f : Frame) :
    ((wsSend ws f).2 = true ↔ ws = some .OPEN) ∧
    ((wsSend ws f).2 = true → (wsSend ws f).1 = some f) ∧
    (ws ≠ some .OPEN → wsSend ws f = (none, false)) ∧
    (∀ (cache : String → Option SessionCache) (chatId content : String)
        (images : Option (List ImageData)) (skipLocalMessage : Bool),
      ¬(jsTrim content = "" ∧ images.getD [] = []) → ws ≠ some .OPEN →
      (sendMessage cache ws (some chatId) content images skipLocalMessage).transmitted
          = none ∧
      (sendMessage cache ws (some chatId) content images skipLocalMessage).errorCalled
          = true ∧
      ((sendMessage cache ws (some chatId) content images skipLocalMessage).cache
          chatId).map (·.isLoading) = some false) := by
  have hclosed : ws ≠ some .OPEN → wsSend ws f = (none, false) := by
    intro hne
    match ws with
    | none => rfl
    | some .CONNECTING => rfl
    | some .CLOSING => rfl
    | some .CLOSED => rfl
    | some .OPEN => exact absurd rfl hne
  refine ⟨?_, ?_, hclosed, ?_⟩
  · constructor
    · intro ht
      by_contra hne
      rw [hclosed hne] at ht
      simp at ht
    · intro h
      rw [h]
      rfl
  · intro ht
    by_cases hws : ws = some .OPEN
    · rw [hws]
      rfl
    · rw [hclosed hws] at ht
      simp at ht
  · intro cache chatId content images skipLocalMessage hne hws
    have hrej : sendMessage cache ws (some chatId) content images skipLocalMessage =
        ⟨none,
          updateSessionCache
            (updateSessionCache cache chatId
              { isLoading := some true, isStreaming := some false }) chatId
            { isLoading := some false },
          true, !skipLocalMessage⟩ := by
      rw [sendMessage, if_neg hne]
      have hw : wsSend ws (Frame.chat chatId (jsTrim content)
          ((images.getD []).map fun i => (i.base64, i.mimeType))) = (none, false) := by
        match ws with
        | none => rfl
        | some .CONNECTING => rfl
        | some .CLOSING => rfl
        | some .CLOSED => rfl
        | some .OPEN => exact absurd rfl hws
      dsimp only
      rw [hw]
    rw [hrej]
    refine ⟨rfl, rfl, ?_⟩
    show ((updateSessionCache
        (updateSessionCache cache chatId
          { isLoading := some true, isStreaming := some false }) chatId
        { isLoading := some false }) chatId).map (·.isLoading) = some false
    rw [updateSessionCache, if_pos rfl]
    cases (updateSessionCache cache chatId
        { isLoading := some true, isStreaming := some false }) chatId <;> rfl

/-- Witness for C9: a closed socket, a valid message. -/
theorem ws_send_open_only_witness :
    ((wsSend (some .CLOSED) (Frame.stop "c")).2 = true ↔
      (some ReadyState.CLOSED) = some .OPEN) ∧
    ((wsSend (some .CLOSED) (Frame.stop "c")).2 = true →
      (wsSend (some .CLOSED) (Frame.stop "c")).1 = some (Frame.stop "c")) ∧
    ((some ReadyState.CLOSED) ≠ some .OPEN →
      wsSend (some .CLOSED) (Frame.stop "c") = (none, false)) ∧
    (∀ (cache : String → Option SessionCache) (chatId content : String)
        (images : Option (List ImageData)) (skipLocalMessage : Bool),
      ¬(jsTrim content = "" ∧ images.getD [] = []) →
      (some ReadyState.CLOSED) ≠ some .OPEN →
      (sendMessage cache (some .CLOSED) (some chatId) content images
          skipLocalMessage).transmitted = none ∧
      (sendMessage cache (some .CLOSED) (some chatId) content images
          skipLocalMessage).errorCalled = true ∧
      ((sendMessage cache (some .CLOSED) (some chatId) content images
          skipLocalMessage).cache chatId).map (·.isLoading) = some false) :=
  ws_send_open_only (some .CLOSED) (Frame.stop "c")

end Frontend

/-! ## Session Registry -/

/-- Modelled from the spec: the Session Registry's map (the registry module
is not among the sources).  Spec §4.2: one live Agent Session per
ConversationId, created lazily.  Session instances are identified by unique
creation tokens drawn from a counter, so "same token" means "same
instance"; the map from conversation id to optional token holds at most one
session per id by construction. -/
structure Registry where
  sessions : String → Option Nat
  nextToken : Nat

/-- Modelled from the spec: `getOrCreate(conversationId)` — "idempotent;
creates at most one session per ConversationId even under concurrent first
access (guarded by a registry-level lock or equivalent single-flight
mechanism)".  The registry lock serializes concurrent calls, so each call
is one atomic operation on the registry map. -/
def getOrCreate (r : Registry) (cid : String) : Registry × Nat :=
  match r.sessions cid with
  | some s => (r, s)
  | none =>
    ({ sessions := fun k => if k = cid then some r.nextToken else r.sessions k,
       nextToken := r.nextToken + 1 }, r.nextToken)

/-- Any interleaved sequence of `getOrCreate` calls, serialized by the
registry lock. -/
def getOrCreateAll (r : Registry) (cids : List String) : Registry :=
  cids.foldl (fun r c => (getOrCreate r c).1) r

theorem getOrCreate_stores (r : Registry) (cid : String) :
    (getOrCreate r cid).1.sessions cid = some (getOrCreate r cid).2 := by
  unfold getOrCreate
  cases h : r.sessions cid with
  | some s => exact h
  | none => simp

theorem getOrCreateAll_stable (cids : List String) (r : Registry)
    (cid : String) (s : Nat) (h : r.sessions cid = some s) :
    (getOrCreateAll r cids).sessions cid = some s := by
  induction cids generalizing r with
  | nil => exact h
  | cons c cids ih =>
    show (getOrCreateAll ((getOrCreate r c).1) cids).sessions cid = some s
    refine ih _ ?_
    unfold getOrCreate
    cases hc : r.sessions c with
    | some s2 => exact h
    | none =>
      by_cases he : cid = c
      · rw [he, hc] at h
        cases h
      · simpa [he] using h

/-- Claim C8: `getOrCreate` is idempotent and single-flight: the first call
stores the session it returns; any later `getOrCreate` for the same
ConversationId — even after arbitrarily many interleaved calls for other
(or the same) conversations, the serialization of a concurrent race —
returns the very same session instance and leaves the registry unchanged,
so at most one Agent Session ever exists per ConversationId. -/
theorem getOrCreate_single_flight (r : Registry) (cid : String)
    (cids : List String) :
    (getOrCreate r cid).1.sessions cid = some (getOrCreate r cid).2 ∧
    (getOrCreate (getOrCreateAll (getOrCreate r cid).1 cids) cid).2 =
      (getOrCreate r cid).2 ∧
    (getOrCreate (getOrCreateAll (getOrCreate r cid).1 cids) cid).1 =
      getOrCreateAll (getOrCreate r cid).1 cids := by
  have hstore := getOrCreate_stores r cid
  have hstable := getOrCreateAll_stable cids (getOrCreate r cid).1 cid
    (getOrCreate r cid).2 hstore
  have hhit : getOrCreate (getOrCreateAll (getOrCreate r cid).1 cids) cid =
      (getOrCreateAll (getOrCreate r cid).1 cids, (getOrCreate r cid).2) := by
    rw [getOrCreate, hstable]
  rw [hhit]
  exact ⟨hstore, rfl, rfl⟩

end ChatAgent
